import Mathlib

/-!
Verification of the chapter-extraction pipeline of
`src/knowledge/micropython/step2-convert_pdf_to_chapters.py`.

The Python code is shallowly embedded: page texts are `List (Option (List Char))`
(`none` models `pdfplumber`'s `extract_text()` returning `None`; the code's
`if not text: continue` also skips the empty string, see `getText`); Python `int`
is `Int`; the per-stage dictionaries become structures.  Console warnings are
pure I/O and are not part of the returned values.
-/

/-- ASCII model of Python's whitespace class (`\s`, `str.strip()`, `str.split()`). -/
def isSpaceC (c : Char) : Bool :=
  c == ' ' || c == '\t' || c == '\n' || c == '\r' || c == '\x0b' || c == '\x0c'

/-- ASCII model of Python's digit class `\d`. -/
def isDigitC (c : Char) : Bool :=
  '0' ≤ c && c ≤ '9'

/-- Python `str.lower()` (ASCII model). -/
def lowerL (l : List Char) : List Char := l.map Char.toLower

/-- Python `str.strip()`. -/
def stripChars (l : List Char) : List Char :=
  ((l.dropWhile isSpaceC).reverse.dropWhile isSpaceC).reverse

/-- Python's substring test `n in h`. -/
def subTermIn (n : List Char) : List Char → Bool
  | [] => n.isEmpty
  | c :: t => n.isPrefixOf (c :: t) || subTermIn n t

/-- Python `text.split('\n')`. -/
def splitNl : List Char → List (List Char)
  | [] => [[]]
  | c :: rest =>
    if c = '\n' then [] :: splitNl rest
    else
      match splitNl rest with
      | [] => [[c]]
      | l :: ls => (c :: l) :: ls

/-- Python `str.split()` (split on whitespace runs, dropping empty pieces). -/
def splitWs (l : List Char) : List (List Char) :=
  (l.foldr
    (fun c ws =>
      if isSpaceC c then [] :: ws
      else
        match ws with
        | [] => [[c]]
        | w :: rest => (c :: w) :: rest)
    []).filter (fun w => !w.isEmpty)

/-- Python `' '.join(ws)`. -/
def joinSp (ws : List (List Char)) : List Char := List.intercalate [' '] ws

/-- Python `int(s)` on a digit string. -/
def digitsToInt (l : List Char) : Int :=
  l.foldl (fun n c => 10 * n + ((c.toNat : Int) - 48)) 0

/-- Ascending `[lo, lo+1, ..., hi]` (empty when `hi < lo`). -/
def ascRange (lo hi : Nat) : List Nat := List.range' lo (hi + 1 - lo)

/-- Descending `[hi, hi-1, ..., lo]` (empty when `hi < lo`).  Regex components
that are greedy try long matches first, i.e. in this order. -/
def descRange (lo hi : Nat) : List Nat := (List.range' lo (hi + 1 - lo)).reverse

/-!
The two TOC line patterns of `extract_toc_from_pdf`:
  pattern 1: `^(\d+(?:\.\d+)?)\s+(.+?)\s+\.{2,}\s*(\d+)`   (re.match, tried first)
  pattern 2: `^(\d+(?:\.\d+)?)\s+(.+?)\s+(\d+)$`           (fallback)

Both start with the same number group `(\d+(?:\.\d+)?)` followed by `\s+`.
Since digits, `'.'` and whitespace are disjoint character classes, the regex
engine's backtracking over this group is vacuous: every shorter candidate for
`\d+` leaves a digit or `'.'` in the position where `\s+` must match.  So the
captured number is the maximal digit run, extended by `'.'` plus the following
maximal digit run when that run is nonempty — `parseNumGroup` below — and when
the rest of the pattern fails on the remainder, no other capture can succeed.
-/

/-- The number group `(\d+(?:\.\d+)?)` of both TOC patterns: returns the
captured group and the remaining input, or `none` when no digit leads. -/
def parseNumGroup (s : List Char) : Option (List Char × List Char) :=
  let d1 := s.takeWhile isDigitC
  let r1 := s.dropWhile isDigitC
  if d1.isEmpty then none
  else
    match r1 with
    | c :: r2 =>
      if c = '.' then
        let d2 := r2.takeWhile isDigitC
        if d2.isEmpty then some (d1, r1)
        else some (d1 ++ '.' :: d2, r2.dropWhile isDigitC)
      else some (d1, r1)
    | [] => some (d1, r1)

/-- Tail of pattern 1 after the number group: `\s+(.+?)\s+\.{2,}\s*(\d+)`
(no end anchor).  The nested searches enumerate component lengths in the
backtracking order of the regex engine: greedy components longest-first
(`descRange`), the lazy title shortest-first (`ascRange`); `.` does not match
a newline.  Returns the captured `(title, page)` groups. -/
def patternOneTail (r : List Char) : Option (List Char × List Char) :=
  (descRange 1 (r.takeWhile isSpaceC).length).findSome? (fun a =>
    let r1 := r.drop a
    (ascRange 1 r1.length).findSome? (fun b =>
      let t := r1.take b
      if t.all (fun ch => ch != '\n') then
        let r2 := r1.drop b
        (descRange 1 (r2.takeWhile isSpaceC).length).findSome? (fun c =>
          let r3 := r2.drop c
          (descRange 2 (r3.takeWhile (fun ch => ch == '.')).length).findSome? (fun e =>
            let r4 := r3.drop e
            (descRange 0 (r4.takeWhile isSpaceC).length).findSome? (fun f =>
              let r5 := r4.drop f
              let g := r5.takeWhile isDigitC
              if !g.isEmpty then some (t, g) else none)))
      else none))

/-- Tail of pattern 2 after the number group: `\s+(.+?)\s+(\d+)$`.
The `$` anchor forces the final digit group to reach the end of the line. -/
def patternTwoTail (r : List Char) : Option (List Char × List Char) :=
  (descRange 1 (r.takeWhile isSpaceC).length).findSome? (fun a =>
    let r1 := r.drop a
    (ascRange 1 r1.length).findSome? (fun b =>
      let t := r1.take b
      if t.all (fun ch => ch != '\n') then
        let r2 := r1.drop b
        (descRange 1 (r2.takeWhile isSpaceC).length).findSome? (fun c =>
          let r3 := r2.drop c
          if !r3.isEmpty && r3.all isDigitC then some (t, r3) else none)
      else none))

/-- One line of the TOC scan: try pattern 1, then pattern 2
(`match = re.match(p1, line)`; `if not match: match = re.match(p2, line)`).
Returns the captured `(number, title, page)` groups. -/
def tocLineMatch (line : List Char) : Option (List Char × List Char × List Char) :=
  match parseNumGroup line with
  | none => none
  | some (num, rest) =>
    match patternOneTail rest with
    | some (t, p) => some (num, t, p)
    | none =>
      match patternTwoTail rest with
      | some (t, p) => some (num, t, p)
      | none => none

/-- A TOC entry as built by `extract_toc_from_pdf`
(`{'number': ..., 'title': ..., 'page': ..., 'level': ...}`). -/
structure Chapter where
  number : List Char
  title : List Char
  page : Int
  level : Nat
deriving Repr, DecidableEq

/-- A chapter after `find_chapter_actual_pages` has assigned `'actual_page'`. -/
structure Located extends Chapter where
  actual_page : Int
deriving Repr, DecidableEq

/-- The retained entry for one scanned line: a pattern match whose captured
number has level `count '.' == 1`; the title group is stripped and the page
group converted with `int(...)`. -/
def lineEntry (line : List Char) : Option Chapter :=
  match tocLineMatch line with
  | none => none
  | some (num, t, p) =>
    if num.count '.' = 1 then
      some ⟨num, stripChars t, digitsToInt p, num.count '.'⟩
    else none

/-- `pdfplumber` page access combined with the `if not text: continue` guard
(both `None` and the empty string are skipped). -/
def getText (pages : List (Option (List Char))) (i : Nat) : Option (List Char) :=
  match pages.getD i none with
  | none => none
  | some t => if t.isEmpty then none else some t

/-- `extract_toc_from_pdf`: scan the first `min(20, len(pages))` pages, match
every line of each page and keep the level-1 entries in scan order. -/
def extract_toc_from_pdf (pages : List (Option (List Char))) : List Chapter :=
  (List.range (min 20 pages.length)).foldl
    (fun acc pn =>
      match getText pages pn with
      | none => acc
      | some t => acc ++ (splitNl t).filterMap lineEntry)
    []

/-- `line.startswith(num + ' ') or line.startswith(num + '\t')`. -/
def startsNum (num line : List Char) : Bool :=
  (num ++ [' ']).isPrefixOf line || (num ++ ['\t']).isPrefixOf line

/-- The per-line scoring loop of `auto_detect_page_offset`: +50 for the chapter
number leading a line (+50 more when the first 30 characters of the normalized
title occur in the following line), and, when the number occurs anywhere in the
line, +10 per word among the normalized title's first five words occurring in
the line (all comparisons case-insensitive on stripped lines). -/
def detectLineScores (num titleClean : List Char) : List (List Char) → Nat
  | [] => 0
  | l :: rest =>
    let line := stripChars l
    let s1 : Nat :=
      if startsNum num line then
        50 +
          (match rest with
           | next :: _ =>
             if subTermIn (lowerL (titleClean.take 30)) (lowerL (stripChars next)) then 50
             else 0
           | [] => 0)
      else 0
    let s2 : Nat :=
      if subTermIn num line then
        10 * ((splitWs (lowerL titleClean)).take 5).countP
          (fun w => subTermIn w (lowerL line))
      else 0
    s1 + s2 + detectLineScores num titleClean rest

/-- The offset detector's score of one page text: the line scores plus +20 when
the first 20 characters of the normalized title occur anywhere in the
whitespace-normalized page text (case-insensitive). -/
def detectScorePage (num title : List Char) (t : List Char) : Nat :=
  let textClean := joinSp (splitWs t)
  let titleClean := joinSp (splitWs title)
  detectLineScores num titleClean (splitNl t) +
    (if subTermIn (lowerL (titleClean.take 20)) (lowerL textClean) then 20 else 0)

/-- The per-line scoring loop of `find_chapter_actual_pages`: +100 for the
chapter number leading a stripped line, plus +50 when any of the title's first
three lowercased words occurs in that line, or else in the following stripped
line. -/
def locateLineScores (num title : List Char) : List (List Char) → Nat
  | [] => 0
  | l :: rest =>
    let ls := stripChars l
    let s : Nat :=
      if startsNum num ls then
        100 +
          (let tws := (splitWs (lowerL title)).take 3
           if tws.any (fun w => subTermIn w (lowerL ls)) then 50
           else
             match rest with
             | next :: _ => if tws.any (fun w => subTermIn w (lowerL (stripChars next))) then 50 else 0
             | [] => 0)
      else 0
    s + locateLineScores num title rest

/-- The chapter locator's score of one page text. -/
def locateScorePage (num title : List Char) (t : List Char) : Nat :=
  locateLineScores num title (splitNl t)

/-- One step of the shared best-tracking loop of both window searches:
skip pages without text, and replace the current best only on a strictly
greater score (`if score > best_match_score`). -/
def bestStep (pages : List (Option (List Char))) (f : List Char → Nat)
    (st : Nat × Option Nat) (i : Nat) : Nat × Option Nat :=
  match getText pages i with
  | none => st
  | some t =>
    let s := f t
    if st.1 < s then (s, some i) else st

/-- The window search `for idx in range(lo, hi)` with
`best_match_score = 0`, `best_match_page = None` as in both
`auto_detect_page_offset` and `find_chapter_actual_pages`; the best page is
recorded by its 0-based index. -/
def bestInWindow (pages : List (Option (List Char))) (f : List Char → Nat)
    (lo hi : Nat) : Nat × Option Nat :=
  (List.range' lo (hi - lo)).foldl (bestStep pages f) (0, none)

/-- The score of the page at physical index `i` (absent when the page has no
text and is skipped by the loop). -/
def pageScore (pages : List (Option (List Char))) (f : List Char → Nat) (i : Nat) :
    Option Nat :=
  (getText pages i).map f

/-- The offset detector's window search for the anchor chapter:
`range(max(0, toc_page - 20), min(len(pages), toc_page + 30))` scored with
`detectScorePage`. -/
def detectBest (pages : List (Option (List Char))) (first : Chapter) : Nat × Option Nat :=
  bestInWindow pages (detectScorePage first.number first.title)
    (max 0 (first.page - 20)).toNat (min (pages.length : Int) (first.page + 30)).toNat

/-- `auto_detect_page_offset`: offset `(best_page + 1) - toc_page` when a page
was recorded and its score reaches 30, else offset 0 (with a console warning). -/
def auto_detect_page_offset (pages : List (Option (List Char)))
    (chapters : List Chapter) : Int :=
  match chapters with
  | [] => 0
  | first :: _ =>
    match (detectBest pages first).2 with
    | some p => if 30 ≤ (detectBest pages first).1 then ((p : Int) + 1) - first.page else 0
    | none => 0

/-- `if page_offset != 0: for chapter in chapters: chapter['page'] += page_offset`. -/
def apply_page_offset (off : Int) (chs : List Chapter) : List Chapter :=
  if off ≠ 0 then chs.map (fun c => { c with page := c.page + off }) else chs

/-- The chapter locator's window search for one chapter:
`range(max(0, toc_page - 5), min(total_pages, toc_page + 15))` scored with
`locateScorePage`.  (The Python loop stores `page_index + 1`; we store the
0-based index and add 1 at the use site, which is the same value.) -/
def locateBest (pages : List (Option (List Char))) (total : Nat) (ch : Chapter) :
    Nat × Option Nat :=
  bestInWindow pages (locateScorePage ch.number ch.title)
    (max 0 (ch.page - 5)).toNat (min (total : Int) (ch.page + 15)).toNat

/-- The locator's per-chapter assignment of `'actual_page'`: the best page
(1-based) when one was recorded with score at least 100, else the chapter's
(offset-adjusted) TOC page, with a console warning. -/
def locateChapter (pages : List (Option (List Char))) (total : Nat) (ch : Chapter) :
    Located :=
  { toChapter := ch
    actual_page :=
      match (locateBest pages total ch).2 with
      | some p => if 100 ≤ (locateBest pages total ch).1 then (p : Int) + 1 else ch.page
      | none => ch.page }

/-- `find_chapter_actual_pages`: assign `'actual_page'` to every chapter
(`total_pages = len(pdf.pages)`). -/
def find_chapter_actual_pages (pages : List (Option (List Char)))
    (chs : List Chapter) : List Located :=
  chs.map (locateChapter pages pages.length)

/-- The inner `for j in range(i + 1, len(chapters))` of `split_pdf_by_chapters`
(and of the preview branch): the end page is `actual_page - 1` of the first
following chapter whose `actual_page` strictly exceeds `v`, else `total`. -/
def findEnd (v : Int) (rest : List Located) (total : Nat) : Int :=
  match rest with
  | [] => (total : Int)
  | c :: cs => if v < c.actual_page then c.actual_page - 1 else findEnd v cs total

/-- The unvalidated per-chapter ranges of the splitter loop, as 1-based
inclusive `(chapter, startPage, endPage)` triples: `startPage = actual_page`
(the code's 0-based `start_page` is `startPage - 1`), `endPage` from `findEnd`
(the code's `end_page`, exclusive 0-based = inclusive 1-based). -/
def resolveRanges (total : Nat) : List Located → List (Located × Int × Int)
  | [] => []
  | c :: cs => (c, c.actual_page, findEnd c.actual_page cs total) :: resolveRanges total cs

/-- The validation of one resolved range, in the code's order: skip when
`start_page >= total_pages` (0-based start); clip `end_page` to `total_pages`;
skip when `start_page >= end_page`; otherwise emit the artifact's range. -/
def validateRange (total : Nat) (r : Located × Int × Int) :
    Option (Located × Int × Int) :=
  match r with
  | (c, s, e) =>
    if (total : Int) ≤ s - 1 then none
    else
      let e2 := if (total : Int) < e then (total : Int) else e
      if e2 ≤ s - 1 then none else some (c, s, e2)

/-- Python slice `l[:m]` (negative `m` counts from the end). -/
def pySliceTo (m : Int) (l : List α) : List α :=
  if 0 ≤ m then l.take m.toNat else l.take ((l.length : Int) + m).toNat

/-- `split_pdf_by_chapters` reduced to the ranges of the artifacts it writes:
the chapter list is truncated first (`if max_files: chapters = chapters[:max_files]`,
so `None` and `0` leave it whole), then each chapter's range is resolved
against the *truncated* list and validated. -/
def split_pdf_by_chapters (total : Nat) (chs : List Located) (maxFiles : Option Int) :
    List (Located × Int × Int) :=
  let chs' :=
    match maxFiles with
    | some m => if m ≠ 0 then pySliceTo m chs else chs
    | none => chs
  (resolveRanges total chs').filterMap (validateRange total)

/-- The 0-based physical page indices an artifact copies:
`[p for p in range(start_page, end_page) if p < total_pages]`. -/
def intRangeAux : Nat → Int → List Int
  | 0, _ => []
  | n + 1, a => a :: intRangeAux n (a + 1)

/-- Python `range(a, b)` over `Int`. -/
def intRange (a b : Int) : List Int := intRangeAux (b - a).toNat a

/-- The page indices written for one validated range. -/
def copiedPages (total : Nat) (s e : Int) : List Int :=
  (intRange (s - 1) e).filter (fun p => p < (total : Int))

/-- Python's `list.index` (first position whose element equals `c`; the preview
branch calls it on an element of the list, where it is total). -/
def pyIndex (c : Located) : List Located → Nat
  | [] => 0
  | x :: xs => if x = c then 0 else pyIndex c xs + 1

/-- The `--show-only` preview branch of `main`: display the (possibly
truncated) chapters, but compute each displayed chapter's end page by scanning
*all* chapters from `all_chapters.index(chapter) + 1`; no validation or
clipping is applied. -/
def previewRanges (total : Nat) (maxFiles : Option Int) (chs : List Located) :
    List (Located × Int × Int) :=
  let display :=
    match maxFiles with
    | some m => if m ≠ 0 then pySliceTo m chs else chs
    | none => chs
  display.map (fun c =>
    (c, c.actual_page, findEnd c.actual_page (chs.drop (pyIndex c chs + 1)) total))

/-- Loop invariant of the shared best-tracking fold after scanning physical
indices `[lo, b)`: the recorded score bounds every scanned page's score; a
recorded page lies in the scanned region, achieves the recorded score and
strictly beats every smaller scanned index; with no recorded page the score
is still 0. -/
structure BestInv (pages : List (Option (List Char))) (f : List Char → Nat)
    (lo b : Nat) (st : Nat × Option Nat) : Prop where
  bound : ∀ q s, lo ≤ q → q < b → pageScore pages f q = some s → s ≤ st.1
  best : ∀ p, st.2 = some p → lo ≤ p ∧ p < b ∧ pageScore pages f p = some st.1 ∧
    ∀ q s, lo ≤ q → q < p → pageScore pages f q = some s → s < st.1
  znone : st.2 = none → st.1 = 0

theorem bestStep_inv {pages : List (Option (List Char))} {f : List Char → Nat}
    {lo b : Nat} {st : Nat × Option Nat} (hlb : lo ≤ b) (h : BestInv pages f lo b st) :
    BestInv pages f lo (b + 1) (bestStep pages f st b) := by
  cases hgt : getText pages b with
  | none =>
    have hstep : bestStep pages f st b = st := by simp [bestStep, hgt]
    rw [hstep]
    refine ⟨?_, ?_, h.znone⟩
    · intro q s hq hqb hps
      rcases Nat.lt_succ_iff_lt_or_eq.mp hqb with h1 | h1
      · exact h.bound q s hq h1 hps
      · subst h1; simp [pageScore, hgt] at hps
    · intro p hp
      obtain ⟨h1, h2, h3, h4⟩ := h.best p hp
      exact ⟨h1, Nat.lt_succ_of_lt h2, h3, h4⟩
  | some t =>
    by_cases hlt : st.1 < f t
    · have hstep : bestStep pages f st b = (f t, some b) := by
        simp [bestStep, hgt, hlt]
      rw [hstep]
      refine ⟨?_, ?_, ?_⟩
      · intro q s hq hqb hps
        show s ≤ f t
        rcases Nat.lt_succ_iff_lt_or_eq.mp hqb with h1 | h1
        · have := h.bound q s hq h1 hps
          omega
        · subst h1
          simp only [pageScore, hgt, Option.map_some', Option.some.injEq] at hps
          omega
      · intro p hp
        have hp2 : some b = some p := hp
        have hbp : b = p := by injection hp2
        subst hbp
        refine ⟨hlb, Nat.lt_succ_self _, by simp [pageScore, hgt], ?_⟩
        intro q s hq hqp hps
        show s < f t
        have := h.bound q s hq hqp hps
        omega
      · intro hp
        exact absurd hp (by simp)
    · have hstep : bestStep pages f st b = st := by
        simp [bestStep, hgt, hlt]
      rw [hstep]
      refine ⟨?_, ?_, h.znone⟩
      · intro q s hq hqb hps
        rcases Nat.lt_succ_iff_lt_or_eq.mp hqb with h1 | h1
        · exact h.bound q s hq h1 hps
        · subst h1
          simp only [pageScore, hgt, Option.map_some', Option.some.injEq] at hps
          omega
      · intro p hp
        obtain ⟨h1, h2, h3, h4⟩ := h.best p hp
        exact ⟨h1, Nat.lt_succ_of_lt h2, h3, h4⟩

theorem bestFold_inv {pages : List (Option (List Char))} {f : List Char → Nat}
    {lo : Nat} : ∀ (n b : Nat) (st : Nat × Option Nat), lo ≤ b → BestInv pages f lo b st →
    BestInv pages f lo (b + n) ((List.range' b n).foldl (bestStep pages f) st) := by
  intro n
  induction n with
  | zero => intro b st _ h; simpa using h
  | succ m ih =>
    intro b st hlb h
    rw [List.range'_succ]
    have h2 := ih (b + 1) (bestStep pages f st b) (by omega) (bestStep_inv hlb h)
    simpa [Nat.add_comm, Nat.add_assoc, Nat.add_left_comm] using h2

theorem bestInWindow_inv (pages : List (Option (List Char))) (f : List Char → Nat)
    (lo hi : Nat) : BestInv pages f lo (lo + (hi - lo)) (bestInWindow pages f lo hi) := by
  refine bestFold_inv (hi - lo) lo (0, none) (Nat.le_refl lo) ⟨?_, ?_, ?_⟩
  · intro q s hq hqb; omega
  · intro p hp; exact absurd hp (by simp)
  · intro _; rfl

theorem bestInWindow_snd_isSome (pages : List (Option (List Char)))
    (f : List Char → Nat) (lo hi : Nat) (h : 0 < (bestInWindow pages f lo hi).1) :
    ∃ p, (bestInWindow pages f lo hi).2 = some p := by
  cases hbp : (bestInWindow pages f lo hi).2 with
  | none =>
    have := (bestInWindow_inv pages f lo hi).znone hbp
    omega
  | some p => exact ⟨p, rfl⟩

theorem detectBest_snd_isSome (pages : List (Option (List Char))) (first : Chapter)
    (h : 0 < (detectBest pages first).1) :
    ∃ p, (detectBest pages first).2 = some p := by
  unfold detectBest at h ⊢
  exact bestInWindow_snd_isSome pages _ _ _ h

theorem locateBest_snd_isSome (pages : List (Option (List Char))) (total : Nat)
    (ch : Chapter) (h : 0 < (locateBest pages total ch).1) :
    ∃ p, (locateBest pages total ch).2 = some p := by
  unfold locateBest at h ⊢
  exact bestInWindow_snd_isSome pages _ _ _ h

/-- C5: in the Offset Detector, when the best confidence score over the window
is at least 30 the returned offset is `(bestPageIndex + 1) - declaredPage` of
the anchor entry (a best page is then necessarily recorded); otherwise the
offset is 0 (the low-confidence warning is console output and the pipeline
continues with that 0). -/
theorem C5_offset_rule (pages : List (Option (List Char))) (first : Chapter)
    (rest : List Chapter) :
    (30 ≤ (detectBest pages first).1 →
      (detectBest pages first).2 ≠ none ∧
      auto_detect_page_offset pages (first :: rest) =
        ((detectBest pages first).2.getD 0 : Int) + 1 - first.page) ∧
    ((detectBest pages first).1 < 30 →
      auto_detect_page_offset pages (first :: rest) = 0) := by
  constructor
  · intro h30
    obtain ⟨p, hp⟩ := detectBest_snd_isSome pages first (by omega)
    refine ⟨by simp [hp], ?_⟩
    simp only [auto_detect_page_offset, hp, if_pos h30, Option.getD_some]
  · intro hlt
    cases hbp : (detectBest pages first).2 with
    | none => simp [auto_detect_page_offset, hbp]
    | some p =>
      simp only [auto_detect_page_offset, hbp]
      rw [if_neg (by omega)]

/-- Witness for C5: on a one-page document whose page reads "1.1 Intro" and an
anchor declaring page 2, the best score is 80 ≥ 30 at physical index 0, so the
detector returns offset (0 + 1) - 2 = -1. -/
theorem C5_offset_rule_witness :
    auto_detect_page_offset [some "1.1 Intro".data]
      [⟨"1.1".data, "Intro".data, 2, 1⟩] = -1 := by
  have h := (C5_offset_rule [some "1.1 Intro".data]
    ⟨"1.1".data, "Intro".data, 2, 1⟩ []).1 (by decide)
  exact h.2.trans (by decide)

/-- C6: in the Chapter Locator, when the best score over the entry's window is
at least 100 the entry's `actual_page` is set to `bestPageIndex + 1` (a best
page is then necessarily recorded); otherwise `actual_page` falls back to the
entry's offset-adjusted declared page (the not-found warning is console output;
the surrounding loop continues with the next entry either way). -/
theorem C6_locator_rule (pages : List (Option (List Char))) (total : Nat)
    (ch : Chapter) :
    (100 ≤ (locateBest pages total ch).1 →
      (locateBest pages total ch).2 ≠ none ∧
      (locateChapter pages total ch).actual_page =
        ((locateBest pages total ch).2.getD 0 : Int) + 1) ∧
    ((locateBest pages total ch).1 < 100 →
      (locateChapter pages total ch).actual_page = ch.page) := by
  constructor
  · intro h100
    obtain ⟨p, hp⟩ := locateBest_snd_isSome pages total ch (by omega)
    refine ⟨by simp [hp], ?_⟩
    simp [locateChapter, hp, if_pos h100]
  · intro hlt
    cases hbp : (locateBest pages total ch).2 with
    | none => simp [locateChapter, hbp]
    | some p =>
      simp only [locateChapter, hbp]
      rw [if_neg (by omega)]

/-- Witness for C6: on a one-page document whose page reads "1.1 Intro", the
entry ⟨"1.1", "Intro", declared 2⟩ scores 150 ≥ 100 at physical index 0, so
`actual_page` is set to 0 + 1 = 1. -/
theorem C6_locator_rule_witness :
    (locateChapter [some "1.1 Intro".data] 1
      ⟨"1.1".data, "Intro".data, 2, 1⟩).actual_page = 1 := by
  have h := (C6_locator_rule [some "1.1 Intro".data] 1
    ⟨"1.1".data, "Intro".data, 2, 1⟩).1 (by decide)
  exact h.2.trans (by decide)

/-- C8: in the shared best-tracking loop used by both the Offset Detector and
the Chapter Locator windows, the recorded page achieves the best score, every
page of the window scores at most the best score, and every earlier-scanned
page (lower physical index) scores strictly less — so among pages tying at the
top score, the first-scanned one is selected. -/
theorem C8_first_of_ties (pages : List (Option (List Char))) (f : List Char → Nat)
    (lo hi p : Nat) (h : (bestInWindow pages f lo hi).2 = some p) :
    lo ≤ p ∧ p < hi ∧
    pageScore pages f p = some (bestInWindow pages f lo hi).1 ∧
    (∀ q s, lo ≤ q → q < hi → pageScore pages f q = some s →
      s ≤ (bestInWindow pages f lo hi).1) ∧
    (∀ q s, lo ≤ q → q < p → pageScore pages f q = some s →
      s < (bestInWindow pages f lo hi).1) := by
  have hinv := bestInWindow_inv pages f lo hi
  obtain ⟨h1, h2, h3, h4⟩ := hinv.best p h
  by_cases hlh : lo ≤ hi
  · have hclose : lo + (hi - lo) = hi := by omega
    rw [hclose] at h2
    refine ⟨h1, h2, h3, ?_, h4⟩
    intro q s hq hqh hps
    exact hinv.bound q s hq (by omega) hps
  · exfalso
    have hz : hi - lo = 0 := by omega
    rw [bestInWindow, hz, List.range'_zero] at h
    simp at h

/-- Witness for C8: with page 0 reading "zz" (score 0) and page 1 reading
"1.1 Intro" (score 150), the recorded best is page 1 and the earlier page's
score is strictly below the best score. -/
theorem C8_first_of_ties_witness :
    locateScorePage "1.1".data "Intro".data "zz".data <
      (bestInWindow [some "zz".data, some "1.1 Intro".data]
        (locateScorePage "1.1".data "Intro".data) 0 2).1 := by
  have h := C8_first_of_ties [some "zz".data, some "1.1 Intro".data]
    (locateScorePage "1.1".data "Intro".data) 0 2 1 (by decide)
  exact h.2.2.2.2 0 (locateScorePage "1.1".data "Intro".data "zz".data)
    (by omega) (by omega) (by decide)

theorem resolveRanges_get? (total : Nat) : ∀ (chs : List Located) (i : Nat),
    (resolveRanges total chs).get? i =
      (chs.get? i).map
        (fun c => (c, c.actual_page, findEnd c.actual_page (chs.drop (i + 1)) total)) := by
  intro chs
  induction chs with
  | nil => intro i; simp [resolveRanges]
  | cons c cs ih =>
    intro i
    cases i with
    | zero => simp [resolveRanges]
    | succ j =>
      rw [resolveRanges, List.get?_cons_succ, List.get?_cons_succ, ih j]
      rfl

theorem findEnd_eq_find? (v : Int) (total : Nat) : ∀ (l : List Located),
    findEnd v l total =
      match l.find? (fun d => decide (v < d.actual_page)) with
      | some d => d.actual_page - 1
      | none => (total : Int) := by
  intro l
  induction l with
  | nil => rfl
  | cons c cs ih =>
    by_cases h : v < c.actual_page
    · rw [findEnd, if_pos h, List.find?_cons_of_pos _ (by simpa using h)]
    · rw [findEnd, if_neg h, ih, List.find?_cons_of_neg _ (by simpa using h)]

theorem findEnd_ge (total : Nat) : ∀ (l : List Located) (v : Int),
    v ≤ (total : Int) → v ≤ findEnd v l total := by
  intro l
  induction l with
  | nil => intro v h; simpa [findEnd] using h
  | cons c cs ih =>
    intro v h
    by_cases hc : v < c.actual_page
    · rw [findEnd, if_pos hc]; omega
    · rw [findEnd, if_neg hc]; exact ih v h

theorem resolveRanges_mem (total : Nat) : ∀ (chs : List Located) (r : Located × Int × Int),
    r ∈ resolveRanges total chs →
    ∃ c l2, r = (c, c.actual_page, findEnd c.actual_page l2 total) := by
  intro chs
  induction chs with
  | nil => intro r h; simp [resolveRanges] at h
  | cons c cs ih =>
    intro r h
    rw [resolveRanges, List.mem_cons] at h
    rcases h with h | h
    · exact ⟨c, cs, h⟩
    · exact ih r h

theorem validateRange_eq (total : Nat) (c : Located) (s e : Int) :
    validateRange total (c, s, e) =
      if s ≤ min e (total : Int) then some (c, s, min e (total : Int)) else none := by
  simp only [validateRange]
  rcases le_or_lt e (total : Int) with hET | hET
  · rw [min_eq_left hET]
    by_cases h1 : (total : Int) ≤ s - 1
    · rw [if_pos h1, if_neg (by omega)]
    · rw [if_neg h1]
      rw [if_neg (not_lt.mpr hET)]
      by_cases h3 : e ≤ s - 1
      · rw [if_pos h3, if_neg (by omega)]
      · rw [if_neg h3, if_pos (by omega)]
  · rw [min_eq_right (le_of_lt hET)]
    by_cases h1 : (total : Int) ≤ s - 1
    · rw [if_pos h1, if_neg (by omega)]
    · rw [if_neg h1]
      rw [if_pos hET]
      rw [if_neg (by omega), if_pos (by omega)]

theorem pairwise_le_get? {R : Located → Located → Prop} {chs : List Located}
    (hpw : List.Pairwise R chs) {i j : Nat} {a b : Located} (hij : i < j)
    (ha : chs.get? i = some a) (hb : chs.get? j = some b) : R a b := by
  obtain ⟨hi, hga⟩ := List.get?_eq_some.mp ha
  obtain ⟨hj, hgb⟩ := List.get?_eq_some.mp hb
  have h := List.pairwise_iff_get.mp hpw ⟨i, hi⟩ ⟨j, hj⟩ (Fin.mk_lt_mk.mpr hij)
  rw [hga, hgb] at h
  exact h

/-- C1: in the splitter's boundary-resolution loop, entry `i` receives
`startPage = actual_page` and `endPage` = the `actual_page - 1` of the first
following entry with a strictly greater `actual_page`, or `totalPages` when
none exists; and for a list with strictly increasing `actual_page` values the
end page is simply the next entry's `actual_page - 1` (`totalPages` for the
last entry), i.e. the ranges are `[p1, p2-1], ..., [pn, T]`. -/
theorem C1_boundary_ranges (total : Nat) (chs : List Located) (i : Nat) (c : Located)
    (hc : chs.get? i = some c) :
    ((resolveRanges total chs).get? i = some (c, c.actual_page,
        match (chs.drop (i + 1)).find? (fun d => decide (c.actual_page < d.actual_page)) with
        | some d => d.actual_page - 1
        | none => (total : Int))) ∧
    (List.Pairwise (fun a b : Located => a.actual_page < b.actual_page) chs →
      (resolveRanges total chs).get? i = some (c, c.actual_page,
        match chs.get? (i + 1) with
        | some d => d.actual_page - 1
        | none => (total : Int))) := by
  have h1 : (resolveRanges total chs).get? i =
      some (c, c.actual_page, findEnd c.actual_page (chs.drop (i + 1)) total) := by
    rw [resolveRanges_get? total chs i, hc]
    rfl
  constructor
  · rw [h1, findEnd_eq_find?]
  · intro hpw
    rw [h1]
    cases hd : chs.get? (i + 1) with
    | none =>
      have hdrop : chs.drop (i + 1) = [] :=
        List.drop_eq_nil_of_le (List.get?_eq_none.mp hd)
      rw [hdrop]
      rfl
    | some d =>
      have hlt : c.actual_page < d.actual_page :=
        pairwise_le_get? hpw (Nat.lt_succ_self i) hc hd
      obtain ⟨hlen, hget⟩ := List.get?_eq_some.mp hd
      rw [List.drop_eq_get_cons hlen, hget, findEnd, if_pos hlt]

/-- Witness for C1: three entries with strictly increasing actual pages
1 < 5 < 9 in a 10-page document; the first entry's range is [1, 4]. -/
theorem C1_boundary_ranges_witness :
    (resolveRanges 10
      [⟨⟨"1.1".data, "A".data, 1, 1⟩, 1⟩, ⟨⟨"1.2".data, "B".data, 5, 1⟩, 5⟩,
        ⟨⟨"1.3".data, "C".data, 9, 1⟩, 9⟩]).get? 0 =
      some (⟨⟨"1.1".data, "A".data, 1, 1⟩, 1⟩, 1, 4) := by
  have h := (C1_boundary_ranges 10
    [⟨⟨"1.1".data, "A".data, 1, 1⟩, 1⟩, ⟨⟨"1.2".data, "B".data, 5, 1⟩, 5⟩,
      ⟨⟨"1.3".data, "C".data, 9, 1⟩, 9⟩] 0 ⟨⟨"1.1".data, "A".data, 1, 1⟩, 1⟩ rfl).2
    (by decide)
  exact h.trans (by decide)

/-- Counterexample to C4: in a 6-page document with entries at actual pages 3
and 4, the first entry's resolved range is [3, 3] — `startPage = endPage` —
yet it is NOT dropped: the splitter emits a one-page artifact for it (the
code's check `start_page >= end_page` compares the 0-based start 2 against the
exclusive end 3). -/
theorem C4_counterexample :
    split_pdf_by_chapters 6
      [⟨⟨"1.1".data, "A".data, 3, 1⟩, 3⟩, ⟨⟨"1.2".data, "B".data, 4, 1⟩, 4⟩] none =
      [(⟨⟨"1.1".data, "A".data, 3, 1⟩, 3⟩, 3, 3),
        (⟨⟨"1.2".data, "B".data, 4, 1⟩, 4⟩, 4, 6)] := by decide

/-- C4 (amended): a resolved range is dropped by validation exactly when its
startPage strictly exceeds its endPage clipped to totalPages (so a range with
startPage = endPage ≤ totalPages is kept and produces a one-page artifact);
moreover, for the ranges actually produced by the boundary-resolution loop
this happens exactly when startPage exceeds totalPages, i.e. only the
out-of-range check ever drops an entry, and validation is per-entry
(`filterMap`), so processing continues for the remaining entries. -/
theorem C4_degenerate_drop (total : Nat) (chs : List Located) (c : Located)
    (s e : Int) :
    (validateRange total (c, s, e) = none ↔ min e (total : Int) < s) ∧
    ((c, s, e) ∈ resolveRanges total chs →
      (validateRange total (c, s, e) = none ↔ (total : Int) < s)) := by
  have hv := validateRange_eq total c s e
  have hiff : validateRange total (c, s, e) = none ↔ min e (total : Int) < s := by
    rw [hv]
    by_cases h : s ≤ min e (total : Int)
    · rw [if_pos h]; simp; omega
    · rw [if_neg h]; simp; omega
  refine ⟨hiff, ?_⟩
  intro hmem
  obtain ⟨c', l2, hr⟩ := resolveRanges_mem total chs _ hmem
  simp only [Prod.mk.injEq] at hr
  obtain ⟨hc', hs, he⟩ := hr
  rw [hiff]
  rcases le_or_lt s (total : Int) with hle | hlt
  · have hge : s ≤ e := by
      rw [hs, he]
      exact findEnd_ge total l2 c'.actual_page (by omega)
    constructor
    · intro h; omega
    · intro h; omega
  · constructor
    · intro _; exact hlt
    · intro _; omega

/-- Witness for C4 (amended): a single entry at actual page 6 of a 5-page
document resolves to range [6, 5]; its start exceeds totalPages, so
validation drops it. -/
theorem C4_degenerate_drop_witness :
    validateRange 5 (⟨⟨"1.1".data, "A".data, 6, 1⟩, 6⟩, 6, 5) = none := by
  have h := (C4_degenerate_drop 5 [⟨⟨"1.1".data, "A".data, 6, 1⟩, 6⟩]
    ⟨⟨"1.1".data, "A".data, 6, 1⟩, 6⟩ 6 5).2 (by decide)
  exact h.mpr (by norm_num)

theorem findEnd_drop_congr (v : Int) (total : Nat) (chs : List Located) :
    ∀ (n k : Nat),
    (∀ m d, k < m → m ≤ k + n → chs.get? m = some d → ¬ (v < d.actual_page)) →
    findEnd v (chs.drop (k + 1)) total = findEnd v (chs.drop (k + 1 + n)) total := by
  intro n
  induction n with
  | zero => intro k _; rfl
  | succ m ih =>
    intro k hno
    have hstep : findEnd v (chs.drop (k + 1)) total =
        findEnd v (chs.drop (k + 2)) total := by
      cases hd : chs.get? (k + 1) with
      | none =>
        have h1 : chs.drop (k + 1) = [] :=
          List.drop_eq_nil_of_le (List.get?_eq_none.mp hd)
        have h2 : chs.drop (k + 2) = [] :=
          List.drop_eq_nil_of_le (by have := List.get?_eq_none.mp hd; omega)
        rw [h1, h2]
      | some d =>
        obtain ⟨hlen, hget⟩ := List.get?_eq_some.mp hd
        rw [List.drop_eq_get_cons hlen, hget, findEnd,
          if_neg (hno (k + 1) d (by omega) (by omega) hd)]
    rw [hstep]
    have h3 := ih (k + 1) (fun m2 d h1 h2 hd => hno m2 d (by omega) (by omega) hd)
    have h4 : k + 1 + 1 + m = k + 1 + (m + 1) := by omega
    rw [h4] at h3
    exact h3

theorem findEnd_drop_eq (v : Int) (total : Nat) (chs : List Located) (k i : Nat)
    (hki : k ≤ i)
    (hno : ∀ m d, k < m → m ≤ i → chs.get? m = some d → ¬ (v < d.actual_page)) :
    findEnd v (chs.drop (k + 1)) total = findEnd v (chs.drop (i + 1)) total := by
  obtain ⟨n, rfl⟩ : ∃ n, i = k + n := ⟨i - k, by omega⟩
  have h := findEnd_drop_congr v total chs n k hno
  have h2 : k + 1 + n = k + n + 1 := by omega
  rw [h2] at h
  exact h

/-- C10: when the (sorted) entry list contains two entries `i < j` with the
same `actual_page`, neither is dropped as a duplicate: both receive the
identical range — the common `actual_page` as start, and as end the
`actual_page - 1` of the next strictly greater entry (or `totalPages`) — and
validation treats them identically, so the splitter emits one artifact per
duplicate covering exactly the same physical pages. -/
theorem C10_duplicate_ranges (total : Nat) (chs : List Located)
    (hpw : List.Pairwise (fun a b : Located => a.actual_page ≤ b.actual_page) chs)
    (i j : Nat) (ci cj : Located) (hij : i < j)
    (hi : chs.get? i = some ci) (hj : chs.get? j = some cj)
    (heq : ci.actual_page = cj.actual_page) :
    (resolveRanges total chs).get? i =
      some (ci, ci.actual_page, findEnd cj.actual_page (chs.drop (j + 1)) total) ∧
    (resolveRanges total chs).get? j =
      some (cj, cj.actual_page, findEnd cj.actual_page (chs.drop (j + 1)) total) ∧
    (validateRange total
        (ci, ci.actual_page, findEnd cj.actual_page (chs.drop (j + 1)) total)).isSome =
      (validateRange total
        (cj, cj.actual_page, findEnd cj.actual_page (chs.drop (j + 1)) total)).isSome := by
  have hno : ∀ m d, i < m → m ≤ j → chs.get? m = some d →
      ¬ (ci.actual_page < d.actual_page) := by
    intro m d h1 h2 hd
    rcases Nat.lt_or_ge m j with h5 | h5
    · have ha : ci.actual_page ≤ d.actual_page := pairwise_le_get? hpw h1 hi hd
      have hb : d.actual_page ≤ cj.actual_page := pairwise_le_get? hpw h5 hd hj
      omega
    · have hmj : m = j := by omega
      subst hmj
      rw [hd] at hj
      injection hj with h6
      rw [h6, heq]
      omega
  constructor
  · rw [resolveRanges_get? total chs i, hi, Option.map_some']
    have h := findEnd_drop_eq ci.actual_page total chs i j (by omega) hno
    rw [h, heq]
  constructor
  · rw [resolveRanges_get? total chs j, hj, Option.map_some']
  · rw [validateRange_eq, validateRange_eq, heq]
    by_cases h : cj.actual_page ≤ min (findEnd cj.actual_page (chs.drop (j + 1)) total) (total : Int)
    · rw [if_pos h, if_pos h]
      rfl
    · rw [if_neg h, if_neg h]

/-- Witness for C10: entries "2.1" and "2.2" both at actual page 2, followed
by "2.3" at page 5, in a 9-page document: both duplicates get the range [2, 4]. -/
theorem C10_duplicate_ranges_witness :
    (resolveRanges 9
      [⟨⟨"2.1".data, "X".data, 2, 1⟩, 2⟩, ⟨⟨"2.2".data, "Y".data, 2, 1⟩, 2⟩,
        ⟨⟨"2.3".data, "Z".data, 5, 1⟩, 5⟩]).get? 0 =
      some (⟨⟨"2.1".data, "X".data, 2, 1⟩, 2⟩, 2, 4) ∧
    (resolveRanges 9
      [⟨⟨"2.1".data, "X".data, 2, 1⟩, 2⟩, ⟨⟨"2.2".data, "Y".data, 2, 1⟩, 2⟩,
        ⟨⟨"2.3".data, "Z".data, 5, 1⟩, 5⟩]).get? 1 =
      some (⟨⟨"2.2".data, "Y".data, 2, 1⟩, 2⟩, 2, 4) := by
  have h := C10_duplicate_ranges 9
    [⟨⟨"2.1".data, "X".data, 2, 1⟩, 2⟩, ⟨⟨"2.2".data, "Y".data, 2, 1⟩, 2⟩,
      ⟨⟨"2.3".data, "Z".data, 5, 1⟩, 5⟩] (by decide) 0 1
    ⟨⟨"2.1".data, "X".data, 2, 1⟩, 2⟩ ⟨⟨"2.2".data, "Y".data, 2, 1⟩, 2⟩
    (by omega) rfl rfl rfl
  exact ⟨h.1.trans (by decide), h.2.1.trans (by decide)⟩

theorem pyIndex_le_of_get? : ∀ (chs : List Located) (i : Nat) (c : Located),
    chs.get? i = some c → pyIndex c chs ≤ i := by
  intro chs
  induction chs with
  | nil => intro i c h; simp at h
  | cons x xs ih =>
    intro i c h
    by_cases hx : x = c
    · simp [pyIndex, hx]
    · cases i with
      | zero =>
        rw [List.get?_cons_zero] at h
        injection h with h2
        exact absurd h2 hx
      | succ j =>
        rw [List.get?_cons_succ] at h
        have := ih j c h
        simp [pyIndex, hx]
        omega

theorem pyIndex_get? : ∀ (chs : List Located) (i : Nat) (c : Located),
    chs.get? i = some c → chs.get? (pyIndex c chs) = some c := by
  intro chs
  induction chs with
  | nil => intro i c h; simp at h
  | cons x xs ih =>
    intro i c h
    by_cases hx : x = c
    · simp [pyIndex, hx]
    · cases i with
      | zero =>
        rw [List.get?_cons_zero] at h
        injection h with h2
        exact absurd h2 hx
      | succ j =>
        rw [List.get?_cons_succ] at h
        simp only [pyIndex, hx, if_neg, ite_false]
        rw [List.get?_cons_succ]
        exact ih j c h

/-- Counterexample to C2: a single entry resolved to actual page 10 in a
5-page document.  The preview reports it with the (unclipped, unvalidated)
range [10, 5], while the splitter's validation drops it and extracts nothing —
so the preview reports neither the same surviving-entry set nor only
splitter-used ranges. -/
theorem C2_preview_counterexample :
    previewRanges 5 none [⟨⟨"1.1".data, "A".data, 10, 1⟩, 10⟩] =
      [(⟨⟨"1.1".data, "A".data, 10, 1⟩, 10⟩, 10, 5)] ∧
    split_pdf_by_chapters 5 [⟨⟨"1.1".data, "A".data, 10, 1⟩, 10⟩] none = [] := by
  decide

/-- C2 (amended): with no maximum-entries limit, on an entry list sorted by
`actual_page` the preview branch reports for every entry exactly the
pre-validation range that the splitter's boundary-resolution loop computes
(`startPage = actual_page`, `endPage` = next strictly greater `actual_page`
minus 1, or `totalPages`).  The splitter then additionally validates —
dropping out-of-range entries and clipping `endPage` — which the preview does
not, and under a max-files limit the splitter resolves ends against the
truncated list while the preview scans all entries. -/
theorem C2_preview_matches_resolver (total : Nat) (chs : List Located)
    (hpw : List.Pairwise (fun a b : Located => a.actual_page ≤ b.actual_page) chs) :
    previewRanges total none chs = resolveRanges total chs := by
  apply List.ext_get?
  intro n
  simp only [previewRanges]
  rw [List.get?_map, resolveRanges_get? total chs n]
  cases hc : chs.get? n with
  | none => rfl
  | some c =>
    simp only [Option.map_some']
    have hk := pyIndex_le_of_get? chs n c hc
    have hkg := pyIndex_get? chs n c hc
    have hfe : findEnd c.actual_page (chs.drop (pyIndex c chs + 1)) total =
        findEnd c.actual_page (chs.drop (n + 1)) total := by
      apply findEnd_drop_eq c.actual_page total chs (pyIndex c chs) n hk
      intro m d h1 h2 hd
      have h3 : c.actual_page ≤ d.actual_page := pairwise_le_get? hpw h1 hkg hd
      have h4 : d.actual_page ≤ c.actual_page := by
        rcases Nat.lt_or_ge m n with h5 | h5
        · exact pairwise_le_get? hpw h5 hd hc
        · have hmn : m = n := by omega
          subst hmn
          rw [hd] at hc
          injection hc with h6
          rw [h6]
      omega
    rw [hfe]

/-- Witness for C2 (amended): two sorted entries at actual pages 2 and 4 in a
7-page document — preview and resolver produce the same range list. -/
theorem C2_preview_matches_resolver_witness :
    previewRanges 7 none
      [⟨⟨"1.1".data, "A".data, 2, 1⟩, 2⟩, ⟨⟨"1.2".data, "B".data, 4, 1⟩, 4⟩] =
      resolveRanges 7
      [⟨⟨"1.1".data, "A".data, 2, 1⟩, 2⟩, ⟨⟨"1.2".data, "B".data, 4, 1⟩, 4⟩] :=
  C2_preview_matches_resolver 7
    [⟨⟨"1.1".data, "A".data, 2, 1⟩, 2⟩, ⟨⟨"1.2".data, "B".data, 4, 1⟩, 4⟩]
    (by decide)

/-- C3: evaluation of the code at the failing input.  Entries at actual pages
1 and 2 in a 5-page document: without a limit, entry 1.1's artifact covers
[1, 1]; with `--max-files 1`, the code truncates the chapter list *before*
resolving boundaries, so the same entry's artifact covers [1, 5] — the end
page is forced to totalPages instead of being bounded by entry 1.2's
actual page, contradicting the claimed truncation of the already-resolved
Range list (which would give [1, 1], as the preview branch's all-entry scan
does). -/
theorem C3_truncation_before_resolution :
    split_pdf_by_chapters 5
      [⟨⟨"1.1".data, "A".data, 1, 1⟩, 1⟩, ⟨⟨"1.2".data, "B".data, 2, 1⟩, 2⟩]
      (some 1) =
      [(⟨⟨"1.1".data, "A".data, 1, 1⟩, 1⟩, 1, 5)] ∧
    split_pdf_by_chapters 5
      [⟨⟨"1.1".data, "A".data, 1, 1⟩, 1⟩, ⟨⟨"1.2".data, "B".data, 2, 1⟩, 2⟩]
      none =
      [(⟨⟨"1.1".data, "A".data, 1, 1⟩, 1⟩, 1, 1),
        (⟨⟨"1.2".data, "B".data, 2, 1⟩, 2⟩, 2, 5)] ∧
    previewRanges 5 (some 1)
      [⟨⟨"1.1".data, "A".data, 1, 1⟩, 1⟩, ⟨⟨"1.2".data, "B".data, 2, 1⟩, 2⟩] =
      [(⟨⟨"1.1".data, "A".data, 1, 1⟩, 1⟩, 1, 1)] := by
  decide

/-- Counterexample to C9: a one-page document reading "x" and an entry whose
(offset-adjusted) declared page is 0.  The locator's search fails (best score
0 < 100), so the fallback assigns `actual_page = 0` — which is not a positive
integer. -/
theorem C9_counterexample :
    (find_chapter_actual_pages [some "x".data]
      [⟨"1.1".data, "Intro".data, 0, 1⟩]).map (fun c => c.actual_page) = [0] := by
  decide

/-- C9 (amended): when the Chapter Locator returns, every entry of the output
list has `actual_page` assigned — `bestPageIndex + 1` on a successful search
(always positive) or the offset-adjusted declared page as fallback — so
boundary resolution and splitting never see an unset `actual_page`, and the
value is positive whenever the adjusted declared page is positive (though the
fallback can be ≤ 0 when the adjusted declared page is). -/
theorem C9_actual_assigned (pages : List (Option (List Char))) (chs : List Chapter)
    (i : Nat) (c : Chapter) (hc : chs.get? i = some c) :
    (find_chapter_actual_pages pages chs).get? i =
      some (locateChapter pages pages.length c) ∧
    (0 < (locateChapter pages pages.length c).actual_page ∨
      (locateChapter pages pages.length c).actual_page = c.page) ∧
    (0 < c.page → 0 < (locateChapter pages pages.length c).actual_page) := by
  have hcases : 0 < (locateChapter pages pages.length c).actual_page ∨
      (locateChapter pages pages.length c).actual_page = c.page := by
    cases hbp : (locateBest pages pages.length c).2 with
    | none =>
      right
      simp [locateChapter, hbp]
    | some p =>
      by_cases h1 : 100 ≤ (locateBest pages pages.length c).1
      · left
        simp only [locateChapter, hbp, if_pos h1]
        omega
      · right
        simp only [locateChapter, hbp]
        rw [if_neg h1]
  refine ⟨?_, hcases, ?_⟩
  · rw [find_chapter_actual_pages, List.get?_map, hc]
    rfl
  · intro hp
    rcases hcases with h | h
    · exact h
    · rw [h]; exact hp

/-- Witness for C9 (amended): on the page "1.1 Intro" with declared page 2,
the located `actual_page` is positive. -/
theorem C9_actual_assigned_witness :
    0 < (locateChapter [some "1.1 Intro".data] 1
      ⟨"1.1".data, "Intro".data, 2, 1⟩).actual_page := by
  have h := C9_actual_assigned [some "1.1 Intro".data]
    [⟨"1.1".data, "Intro".data, 2, 1⟩] 0 ⟨"1.1".data, "Intro".data, 2, 1⟩ rfl
  exact h.2.2 (by norm_num)

theorem takeWhile_append_all {p : Char → Bool} :
    ∀ (d : List Char) (x : Char) (r : List Char), d.all p = true → p x = false →
    (d ++ x :: r).takeWhile p = d ∧ (d ++ x :: r).dropWhile p = x :: r := by
  intro d
  induction d with
  | nil =>
    intro x r _ hx
    constructor
    · simp [List.takeWhile_cons, hx]
    · simp [List.dropWhile_cons, hx]
  | cons a as ih =>
    intro x r hall hx
    have h2 : p a = true ∧ as.all p = true := by simpa using hall
    have h3 := ih x r h2.2 hx
    constructor
    · simp [List.takeWhile_cons, h2.1, h3.1]
    · simp [List.dropWhile_cons, h2.1, h3.2]

theorem count_dot_of_all_digits (l : List Char) (h : ∀ x ∈ l, isDigitC x = true) :
    l.count '.' = 0 := by
  rw [List.count_eq_zero]
  intro hm
  exact absurd (h '.' hm) (by decide)

theorem parseNumGroup_dots (s num rest : List Char)
    (h : parseNumGroup s = some (num, rest)) : num.count '.' ≤ 1 := by
  have hc1 : (s.takeWhile isDigitC).count '.' = 0 :=
    count_dot_of_all_digits _ (fun x hx => List.mem_takeWhile_imp hx)
  simp only [parseNumGroup] at h
  split at h
  · exact Option.noConfusion h
  · split at h
    · rename_i c r2 heq
      have hc2 : (r2.takeWhile isDigitC).count '.' = 0 :=
        count_dot_of_all_digits _ (fun x hx => List.mem_takeWhile_imp hx)
      split at h
      · split at h
        · simp only [Option.some.injEq, Prod.mk.injEq] at h
          rw [← h.1, hc1]
          omega
        · simp only [Option.some.injEq, Prod.mk.injEq] at h
          rw [← h.1, List.count_append, List.count_cons_self, hc1, hc2]
      · simp only [Option.some.injEq, Prod.mk.injEq] at h
        rw [← h.1, hc1]
        omega
    · simp only [Option.some.injEq, Prod.mk.injEq] at h
      rw [← h.1, hc1]
      omega

theorem tocLineMatch_dots (line num t p : List Char)
    (h : tocLineMatch line = some (num, t, p)) : num.count '.' ≤ 1 := by
  simp only [tocLineMatch] at h
  split at h
  · exact Option.noConfusion h
  · rename_i pr n0 r0 heq
    split at h
    · rename_i tp t1 p1 heq1
      simp only [Option.some.injEq, Prod.mk.injEq] at h
      rw [← h.1]
      exact parseNumGroup_dots line n0 r0 heq
    · split at h
      · rename_i tp t1 p1 heq2
        simp only [Option.some.injEq, Prod.mk.injEq] at h
        rw [← h.1]
        exact parseNumGroup_dots line n0 r0 heq
      · exact Option.noConfusion h

theorem patternOneTail_head_not_space (x : Char) (xs : List Char)
    (hx : isSpaceC x = false) : patternOneTail (x :: xs) = none := by
  have h2 : (x :: xs).takeWhile isSpaceC = [] := by
    simp [List.takeWhile_cons, hx]
  unfold patternOneTail
  rw [h2]
  rfl

theorem patternTwoTail_head_not_space (x : Char) (xs : List Char)
    (hx : isSpaceC x = false) : patternTwoTail (x :: xs) = none := by
  have h2 : (x :: xs).takeWhile isSpaceC = [] := by
    simp [List.takeWhile_cons, hx]
  unfold patternTwoTail
  rw [h2]
  rfl

/-- C7: the TOC Extractor retains an entry for a scanned line if and only if
the line matches one of the two TOC patterns with a captured section number of
depth exactly 1 (one dot); any captured number has at most one dot — so an
undotted number (e.g. "1") is filtered out by the depth check, and a line
leading with a twice-dotted numeral (e.g. "1.2.3 ...") can never match at all
and yields no retained entry. -/
theorem C7_depth_filter (line : List Char) :
    ((lineEntry line).isSome ↔
      ∃ num t p, tocLineMatch line = some (num, t, p) ∧ num.count '.' = 1) ∧
    (∀ num t p, tocLineMatch line = some (num, t, p) → num.count '.' ≤ 1) ∧
    (∀ d1 d2 rest : List Char, d1.all isDigitC = true → d2.all isDigitC = true →
      lineEntry (d1 ++ '.' :: (d2 ++ '.' :: rest)) = none) := by
  refine ⟨?_, fun num t p h => tocLineMatch_dots line num t p h, ?_⟩
  · cases hm : tocLineMatch line with
    | none =>
      have hle : lineEntry line = none := by simp [lineEntry, hm]
      rw [hle]
      simp [hm]
    | some ntp =>
      obtain ⟨num, t, p⟩ := ntp
      by_cases hcnt : num.count '.' = 1
      · have hle : (lineEntry line).isSome = true := by
          simp [lineEntry, hm, if_pos hcnt]
        rw [hle]
        simp only [true_iff]
        exact ⟨num, t, p, rfl, hcnt⟩
      · have hle : lineEntry line = none := by
          simp [lineEntry, hm, if_neg hcnt]
        rw [hle]
        simp only [Option.isSome_none, Bool.false_eq_true, false_iff]
        intro hex
        obtain ⟨n2, t2, p2, he, hc2⟩ := hex
        simp only [Option.some.injEq, Prod.mk.injEq] at he
        exact hcnt (he.1 ▸ hc2)
  · intro d1 d2 rest h1 h2
    have hx : isDigitC '.' = false := by decide
    by_cases hd1 : d1.isEmpty
    · have hnil : d1 = [] := by simpa using hd1
      subst hnil
      have ht : ('.' :: (d2 ++ '.' :: rest)).takeWhile isDigitC = [] := by
        rw [List.takeWhile_cons, if_neg (by decide)]
      have hp : parseNumGroup ('.' :: (d2 ++ '.' :: rest)) = none := by
        simp [parseNumGroup, ht]
      simp only [List.nil_append]
      simp [lineEntry, tocLineMatch, hp]
    · obtain ⟨ht1, hdw1⟩ := takeWhile_append_all d1 '.' (d2 ++ '.' :: rest) h1 hx
      have hp : ∃ num r, parseNumGroup (d1 ++ '.' :: (d2 ++ '.' :: rest)) =
          some (num, '.' :: r) := by
        obtain ⟨ht2, hdw2⟩ := takeWhile_append_all d2 '.' rest h2 hx
        by_cases hd2e : d2.isEmpty
        · refine ⟨d1, d2 ++ '.' :: rest, ?_⟩
          simp [parseNumGroup, ht1, hdw1, hd1, ht2, hd2e]
        · refine ⟨d1 ++ '.' :: d2, rest, ?_⟩
          simp [parseNumGroup, ht1, hdw1, hd1, ht2, hd2e, hdw2]
      obtain ⟨num, r, hp⟩ := hp
      have h1t := patternOneTail_head_not_space '.' r (by decide)
      have h2t := patternTwoTail_head_not_space '.' r (by decide)
      simp [lineEntry, tocLineMatch, hp, h1t, h2t]

/-- Witness for C7: the line "1.1 Intro .... 5" matches pattern 1 with number
"1.1" (depth 1) and is retained; the depth-0 line "1 Basics 4" matches pattern
2 but is not retained. -/
theorem C7_depth_filter_witness :
    (lineEntry "1.1 Intro .... 5".data).isSome = true ∧
    ("1.1".data.count '.' ≤ 1 ∧ lineEntry "1 Basics 4".data = none) := by
  constructor
  · exact (C7_depth_filter "1.1 Intro .... 5".data).1.mpr
      ⟨"1.1".data, "Intro".data, "5".data, by decide, by decide⟩
  constructor
  · exact (C7_depth_filter "1.1 Intro .... 5".data).2.1
      "1.1".data "Intro".data "5".data (by decide)
  · have h := (C7_depth_filter "1 Basics 4".data).1
    cases hle : lineEntry "1 Basics 4".data with
    | none => rfl
    | some c =>
      exfalso
      obtain ⟨num, t, p, hm, hc⟩ := h.mp (by rw [hle]; rfl)
      have : num = "1".data := by
        have h2 : tocLineMatch "1 Basics 4".data =
            some ("1".data, "Basics".data, "4".data) := by decide
        rw [h2] at hm
        simp only [Option.some.injEq, Prod.mk.injEq] at hm
        exact hm.1.symm
      rw [this] at hc
      exact absurd hc (by decide)
